import Mathlib

/-!
Verification of the medagent-copilot conversation-to-action bridge.

The TypeScript sources embedded here:
  * `parseAgentResponse` (copilot client module): normalizes one agent turn
    and classifies it as GET / POST / FINISH / INVALID.
  * `runTestCase`, `sendFhirGet`, `sendFhirPost`, `buildMedAgentPrompt`
    (MedAgentBench bridge module): the round loop driving the agent against
    the FHIR record server.
  * the magnesium replacement dosing table (clinical knowledge documents).

JS strings are modelled as `List Char`; `JSON.parse` and `JSON.stringify`
and the record server are modelled as explicit parameters (an `Env`),
since they are external to the repository's code.  `Except` models the
`{data}/{error}` result objects and thrown exceptions (the error payload
is the exception/error message string).
-/

set_option maxHeartbeats 1000000

namespace MedAgent

/-- Text (the character data of a JS string). -/
abbrev Str := List Char

/-- JSON values as produced by `JSON.parse`.  Numbers are modelled as
rationals; none of the verified properties depends on JS float semantics. -/
inductive JsonValue where
  | null
  | bool (b : Bool)
  | num (q : Int)
  | str (s : Str)
  | arr (elems : List JsonValue)
  | obj (fields : List (Str × JsonValue))

/-- JS `String.prototype.trim`: drop whitespace from both ends. -/
def jsTrim (s : Str) : Str :=
  ((s.dropWhile Char.isWhitespace).reverse.dropWhile Char.isWhitespace).reverse

/-- Consume one optional leading newline (the `\n?` tail of the fence regexes). -/
def dropNl : Str → Str
  | '\n' :: rest => rest
  | s => s

/-- Width of the optional newline the fence regexes additionally consume. -/
def nlSkip : Str → Nat
  | '\n' :: _ => 1
  | _ => 0

/-- Single pass of the global regex replacement `s.replace(/PAT\n?/g, "")`
for a nonempty pattern `p :: ps`, in a structurally recursive form:
`skip` counts characters still to be discarded from a match begun earlier. -/
def replaceFenceGo (p : Char) (ps : Str) : Nat → Str → Str
  | _, [] => []
  | skip + 1, _ :: cs => replaceFenceGo p ps skip cs
  | 0, c :: cs =>
    if (p :: ps).isPrefixOf (c :: cs) then
      replaceFenceGo p ps (ps.length + nlSkip (cs.drop ps.length)) cs
    else
      c :: replaceFenceGo p ps 0 cs

/-- `s.replace(/PAT\n?/g, "")` for the nonempty pattern `p :: ps`. -/
def replaceFence (p : Char) (ps : Str) (s : Str) : Str :=
  replaceFenceGo p ps 0 s

/-- The normalization both the standalone parser and the round loop apply to a
raw agent response:
`response.trim().replace(/BTBTBTtool_code\n?/g,"").replace(/BTBTBTjson\n?/g,"")
.replace(/BTBTBT\n?/g,"").trim()` (BT = backtick). -/
def cleanse (response : Str) : Str :=
  jsTrim (replaceFence '`' ("``".data)
           (replaceFence '`' ("``json".data)
             (replaceFence '`' ("``tool_code".data) (jsTrim response))))

/-- Number of leading backticks of a string (proof-support measure for the
fence-stripping analysis). -/
def leadTicks (l : Str) : Nat := (l.takeWhile (· == '`')).length

/-- JS `String.prototype.includes`: substring occurrence test. -/
def jsIncludes : Str → Str → Bool
  | s, sub =>
    match s with
    | [] => sub.isEmpty
    | c :: cs => sub.isPrefixOf (c :: cs) || jsIncludes cs sub

/-- The url extracted by the GET branch: `trimmed.substring(4).trim()`. -/
def getUrlOf (t : Str) : Str := jsTrim (t.drop 4)

/-- The url extracted by the POST branch:
`lines[0].substring(5).trim()` where `lines = trimmed.split("\n")`. -/
def postUrlOf (t : Str) : Str := jsTrim (((t.splitOn '\n').headD []).drop 5)

/-- The payload text extracted by the POST branch:
`lines.slice(1).join("\n").trim()`. -/
def postPayloadOf (t : Str) : Str :=
  jsTrim (List.intercalate ['\n'] ((t.splitOn '\n').drop 1))

/-- The inner text extracted by the FINISH branch: `cleaned.slice(7, -1)`. -/
def finishInnerOf (t : Str) : Str := (t.drop 7).dropLast

/-- The FINISH guard: `startsWith("FINISH(") && endsWith(")")`. -/
def finishGuard (t : Str) : Bool :=
  ("FINISH(".data).isPrefixOf t && t.getLast? == some ')'

/-- Result of `parseAgentResponse` (the `{type, url?, payload?, answers?}`
object): a POST payload is either parsed JSON (`Sum.inl`) or, when JSON
parsing fails, the raw payload text (`Sum.inr`). -/
inductive ParsedAction where
  | get (url : Str)
  | post (url : Str) (payload : JsonValue ⊕ Str)
  | finish (answers : List JsonValue)
  | invalid

/-- `parseAgentResponse`, parameterized by the JSON parser `jp`
(JS `JSON.parse`; the `Except.error` payload is the exception message). -/
def parseAgentResponse (jp : Str → Except Str JsonValue) (response : Str) :
    ParsedAction :=
  if ("GET ".data).isPrefixOf (cleanse response) then
    ParsedAction.get (getUrlOf (cleanse response))
  else if ("POST ".data).isPrefixOf (cleanse response) then
    match jp (postPayloadOf (cleanse response)) with
    | Except.ok payload =>
      ParsedAction.post (postUrlOf (cleanse response)) (Sum.inl payload)
    | Except.error _ =>
      ParsedAction.post (postUrlOf (cleanse response))
        (Sum.inr (postPayloadOf (cleanse response)))
  else if finishGuard (cleanse response) then
    match jp (finishInnerOf (cleanse response)) with
    | Except.ok (JsonValue.arr answers) => ParsedAction.finish answers
    | Except.ok v => ParsedAction.finish [v]
    | Except.error _ =>
      ParsedAction.finish [JsonValue.str (finishInnerOf (cleanse response))]
  else
    ParsedAction.invalid

/-! ### The MedAgentBench bridge (`runTestCase` module) -/

/-- A conversation turn (`{role, content}`). -/
structure Msg where
  role : Str
  content : Str
deriving DecidableEq

/-- The external world of the bridge: `JSON.parse`, `JSON.stringify(·, null, 2)`
and the FHIR record server's responses to GET and POST dispatches.  A POST
payload is parsed JSON or (through the standalone-parser path) raw text. -/
structure Env where
  jp : Str → Except Str JsonValue
  stringify : JsonValue → Str
  fhirGetResp : Str → Except Str JsonValue
  fhirPostResp : Str → JsonValue ⊕ Str → Except Str JsonValue

/-- The `urlWithFormat` expression of `sendFhirGet` (and of the GET branch of
`runTestCase`): `url.includes("_format=") ? url : url + "&_format=json"`. -/
def ensureFormat (url : Str) : Str :=
  if jsIncludes url ("_format=".data) then url else url ++ ("&_format=json".data)

/-- `sendFhirGet`: appends the JSON format marker if absent, then dispatches
`axios.get`; a thrown error is returned as an error descriptor. -/
def sendFhirGet (env : Env) (url : Str) : Except Str JsonValue :=
  env.fhirGetResp (ensureFormat url)

/-- `sendFhirPost`: dispatches `axios.post` with the fhir+json content type;
a thrown error is returned as an error descriptor. -/
def sendFhirPost (env : Env) (url : Str) (payload : JsonValue ⊕ Str) :
    Except Str JsonValue :=
  env.fhirPostResp url payload

/-- Observer feedback for a successful GET. -/
def getOkMsg (env : Env) (data : JsonValue) : Str :=
  ("Here is the response from the GET request:\n".data) ++ env.stringify data ++
    (". Please call FINISH if you have got answers for all the questions and finished all the requested tasks".data)

/-- Observer feedback for a failed GET. -/
def getErrMsg (e : Str) : Str := ("Error in sending the GET request: ".data) ++ e

/-- Observer feedback appended after a POST whose body parsed as JSON. -/
def postOkMsg : Str :=
  "POST request accepted and executed successfully. Please call FINISH if you have got answers for all the questions and finished all the requested tasks".data

/-- Observer feedback for a POST whose body failed JSON parsing. -/
def postErrMsg (e : Str) : Str := ("Invalid POST request: ".data) ++ e

/-- The value returned by `runTestCase`, extended with a trace (`posts`) of
every `sendFhirPost` dispatch actually performed. -/
structure RunResult where
  success : Bool
  result : Option Str
  history : List Msg
  rounds : Nat
  posts : List (Str × (JsonValue ⊕ Str))

/-- The round loop of `runTestCase`: one iteration of the `for` loop and the
remainder, with `fuel = maxRounds - round`.  `posts` traces the write
dispatches.  Note the POST branch mirrors the source faithfully: the value
`sendFhirPost` returns is bound and then never consulted, so it does not
appear in the recursion. -/
def runAux (env : Env) (agent : List Msg → Str) (maxRounds : Nat) :
    Nat → Nat → List Msg → List (Str × (JsonValue ⊕ Str)) → RunResult
  | _, 0, history, posts =>
    { success := false, result := none, history := history,
      rounds := maxRounds, posts := posts }
  | round, fuel + 1, history, posts =>
    if ("GET ".data).isPrefixOf (cleanse (agent history)) then
      match sendFhirGet env (ensureFormat (getUrlOf (cleanse (agent history)))) with
      | Except.ok data =>
        runAux env agent maxRounds (round + 1) fuel
          (history ++ [{ role := "agent".data, content := agent history },
                       { role := "user".data, content := getOkMsg env data }]) posts
      | Except.error e =>
        runAux env agent maxRounds (round + 1) fuel
          (history ++ [{ role := "agent".data, content := agent history },
                       { role := "user".data, content := getErrMsg e }]) posts
    else if ("POST ".data).isPrefixOf (cleanse (agent history)) then
      match env.jp (postPayloadOf (cleanse (agent history))) with
      | Except.ok payload =>
        runAux env agent maxRounds (round + 1) fuel
          (history ++ [{ role := "agent".data, content := agent history },
                       { role := "user".data, content := postOkMsg }])
          (posts ++ [(postUrlOf (cleanse (agent history)), Sum.inl payload)])
      | Except.error e =>
        runAux env agent maxRounds (round + 1) fuel
          (history ++ [{ role := "agent".data, content := agent history },
                       { role := "user".data, content := postErrMsg e }]) posts
    else if finishGuard (cleanse (agent history)) then
      { success := true, result := some (finishInnerOf (cleanse (agent history))),
        history := history ++ [{ role := "agent".data, content := agent history }],
        rounds := round + 1, posts := posts }
    else
      { success := false, result := none,
        history := history ++ [{ role := "agent".data, content := agent history }],
        rounds := round + 1, posts := posts }

/-- A MedAgentBench test case (`{id, instruction, context}`). -/
structure TestCase where
  id : Str
  instruction : Str
  context : Str

/-- `buildMedAgentPrompt`: the initial user prompt.  `functionsJson` stands for
`JSON.stringify(functions, null, 2)`. -/
def buildMedAgentPrompt (testCase : TestCase) (functionsJson : Str)
    (apiBase : Str) : Str :=
  ("You are an expert in using FHIR functions to assist medical professionals. You are given a question and a set of possible functions. Based on the question, you will need to make one or more function/tool calls to achieve the purpose.\n\n1. If you decide to invoke a GET function, you MUST put it in the format of\nGET url?param_name1=param_value1&param_name2=param_value2...\n\n2. If you decide to invoke a POST function, you MUST put it in the format of\nPOST url\n[your payload data in JSON format]\n\n3. If you have got answers for all the questions and finished all the requested tasks, you MUST call to finish the conversation in the format of (make sure the list is JSON loadable.)\nFINISH([answer1, answer2, ...])\n\nYour response must be in the format of one of the three cases, and you can call only one function each time. You SHOULD NOT include any other text in the response.\n\nHere is a list of functions in JSON format that you can invoke. Note that you should use ".data)
    ++ apiBase ++ (" as the api_base.\n".data) ++ functionsJson
    ++ ("\n\nContext: ".data) ++ testCase.context
    ++ ("\nQuestion: ".data) ++ testCase.instruction

/-- `runTestCase`: build the initial prompt, then run up to `maxRounds`
rounds of the agent loop. -/
def runTestCase (env : Env) (agent : List Msg → Str) (testCase : TestCase)
    (functionsJson : Str) (apiBase : Str) (maxRounds : Nat) : RunResult :=
  runAux env agent maxRounds 0 maxRounds
    [{ role := "user".data,
       content := buildMedAgentPrompt testCase functionsJson apiBase }] []

/-! ### The inline parsing of the round loop, as a standalone classification
(for comparison with `parseAgentResponse`) -/

/-- The case analysis the round loop performs on one normalized response
(`runTestCase` lines: the `if`/`else if` chain), with the extracted url,
parse outcome and raw payload text recorded. -/
inductive OrchStep where
  | doGet (url : Str)
  | doPost (url : Str) (parsed : Except Str JsonValue) (raw : Str)
  | doFinish (resultStr : Str)
  | doInvalid

/-- The round loop's inline classification of an agent response. -/
def orchParse (jp : Str → Except Str JsonValue) (response : Str) : OrchStep :=
  if ("GET ".data).isPrefixOf (cleanse response) then
    OrchStep.doGet (getUrlOf (cleanse response))
  else if ("POST ".data).isPrefixOf (cleanse response) then
    OrchStep.doPost (postUrlOf (cleanse response))
      (jp (postPayloadOf (cleanse response))) (postPayloadOf (cleanse response))
  else if finishGuard (cleanse response) then
    OrchStep.doFinish (finishInnerOf (cleanse response))
  else
    OrchStep.doInvalid

/-- The correspondence between the round loop's classification and the
standalone parser's action: same case, same url, same payload text; the
FINISH answers are obtained from the same inner text by the same JSON-array
wrapping rule. -/
def orchToParsed (jp : Str → Except Str JsonValue) : OrchStep → ParsedAction
  | OrchStep.doGet url => ParsedAction.get url
  | OrchStep.doPost url (Except.ok v) _ => ParsedAction.post url (Sum.inl v)
  | OrchStep.doPost url (Except.error _) raw => ParsedAction.post url (Sum.inr raw)
  | OrchStep.doFinish r =>
    ParsedAction.finish
      (match jp r with
       | Except.ok (JsonValue.arr answers) => answers
       | Except.ok v => [v]
       | Except.error _ => [JsonValue.str r])
  | OrchStep.doInvalid => ParsedAction.invalid

/-! ### The magnesium replacement dosing rule -/

/-- A magnesium replacement order: dose in grams, infusion time in hours. -/
structure MgOrder where
  doseGrams : Nat
  infusionHours : Nat
deriving DecidableEq

/-- Modelled from the spec: the repository's magnesium dosing rule exists only
as documentation tables (`clinical_knowledge.md` "IV Magnesium Sulfate" and
`task_instructions.md` Task 5), not as executable code.  Tiered lookup on the
serum level (mg/dL): `[1.5,1.9] -> 1g/1h`, `[1.0,1.5) -> 2g/2h`,
`<1.0 -> 4g/4h`, and no replacement at or above the normal threshold 2.0. -/
def magnesiumDose (level : ℚ) : Option MgOrder :=
  if 2 ≤ level then none
  else if 3/2 ≤ level ∧ level ≤ 19/10 then some ⟨1, 1⟩
  else if 1 ≤ level ∧ level < 3/2 then some ⟨2, 2⟩
  else if level < 1 then some ⟨4, 4⟩
  else none

/-! ### Concrete test fixtures (used to instantiate the theorems) -/

/-- A small concrete JSON parser covering the payloads used in tests; anything
else fails with an exception message, as `JSON.parse` does. -/
def jpSample : Str → Except Str JsonValue := fun s =>
  if s = "[1]".data then Except.ok (JsonValue.arr [JsonValue.num 1])
  else if s = "7".data then Except.ok (JsonValue.num 7)
  else if s = ("\x7b\x7d".data) then Except.ok (JsonValue.obj [])
  else Except.error ("Unexpected token".data)

/-- A test environment whose server accepts every read and write. -/
def envOk : Env :=
  { jp := jpSample, stringify := fun _ => [],
    fhirGetResp := fun _ => Except.ok JsonValue.null,
    fhirPostResp := fun _ _ => Except.ok JsonValue.null }

/-- A test environment whose server rejects every write with an error
descriptor. -/
def envPostErr : Env :=
  { jp := jpSample, stringify := fun _ => [],
    fhirGetResp := fun _ => Except.ok JsonValue.null,
    fhirPostResp := fun _ _ => Except.error ("Request failed with status code 400".data) }

/-- An agent that always requests a read. -/
def agentGet : List Msg → Str := fun _ => "GET http://h/Patient?name=A".data

/-- An agent that always sends a write whose body is not JSON. -/
def agentPostBad : List Msg → Str := fun _ => ("POST http://h/Observation\nnot json".data)

/-- An agent that always sends a write with a JSON body. -/
def agentPostOk : List Msg → Str := fun _ => ("POST http://h/Observation\n\x7b\x7d".data)

/-- An agent that always answers with protocol-violating text. -/
def agentHello : List Msg → Str := fun _ => "hello".data

/-- An empty test case. -/
def tc0 : TestCase := { id := [], instruction := [], context := [] }

/-! ## Helper lemmas about the fence-stripping normalization -/

theorem replaceFenceGo_skip (p : Char) (ps : Str) :
    ∀ (l : Str) (k : Nat),
      replaceFenceGo p ps k l = replaceFenceGo p ps 0 (l.drop k) := by
  intro l
  induction l with
  | nil => intro k; cases k <;> rfl
  | cons c cs ih =>
    intro k
    cases k with
    | zero => rfl
    | succ k => simpa [replaceFenceGo] using ih k

theorem replaceFence_nil (p : Char) (ps : Str) : replaceFence p ps [] = [] := rfl

theorem dropNl_cons_ne {c : Char} (t : Str) (h : c ≠ '\n') :
    dropNl (c :: t) = c :: t := by
  rw [dropNl.eq_def]
  split
  · next heq => rw [List.cons.injEq] at heq; exact absurd heq.1 h
  · rfl

theorem dropNl_length_le (l : Str) : (dropNl l).length ≤ l.length := by
  rw [dropNl.eq_def]
  split <;> simp

theorem nlSkip_dropNl (m : Str) : m.drop (nlSkip m) = dropNl m := by
  rcases m with _ | ⟨c, t⟩
  · rfl
  · by_cases hc : c = '\n'
    · subst hc; rfl
    · rw [dropNl_cons_ne t hc]
      have h0 : nlSkip (c :: t) = 0 := by
        rw [nlSkip.eq_def]
        split
        · next heq => rw [List.cons.injEq] at heq; exact absurd heq.1 hc
        · rfl
      rw [h0, List.drop_zero]

theorem replaceFence_cons_pos {p : Char} {ps : Str} {c : Char} {cs : Str}
    (h : (p :: ps).isPrefixOf (c :: cs) = true) :
    replaceFence p ps (c :: cs) = replaceFence p ps (dropNl (cs.drop ps.length)) := by
  show replaceFenceGo p ps 0 (c :: cs) = replaceFenceGo p ps 0 (dropNl (cs.drop ps.length))
  rw [replaceFenceGo, if_pos h, replaceFenceGo_skip, ← List.drop_drop, nlSkip_dropNl]

theorem replaceFence_cons_neg {p : Char} {ps : Str} {c : Char} {cs : Str}
    (h : ¬ (p :: ps).isPrefixOf (c :: cs) = true) :
    replaceFence p ps (c :: cs) = c :: replaceFence p ps cs := by
  show replaceFenceGo p ps 0 (c :: cs) = c :: replaceFenceGo p ps 0 cs
  rw [replaceFenceGo, if_neg h]

theorem jsIncludes_iff {s sub : Str} : jsIncludes s sub = true ↔ sub <:+: s := by
  induction s with
  | nil =>
    rw [jsIncludes]
    simp [List.isEmpty_iff]
  | cons c cs ih =>
    rw [jsIncludes]
    simp [List.infix_cons_iff, List.isPrefixOf_iff_prefix, ih]

theorem replaceFence_eq_self {p : Char} {ps l : Str} (h : ¬ (p :: ps) <:+: l) :
    replaceFence p ps l = l := by
  induction l with
  | nil => rfl
  | cons c cs ih =>
    have h1 : ¬ (p :: ps).isPrefixOf (c :: cs) = true := by
      rw [List.isPrefixOf_iff_prefix]
      exact fun hp => h hp.isInfix
    have h2 : ¬ (p :: ps) <:+: cs := fun hi => h (List.infix_cons_iff.mpr (Or.inr hi))
    rw [replaceFence_cons_neg h1, ih h2]

theorem leadTicks_cons_tick (t : Str) : leadTicks ('`' :: t) = leadTicks t + 1 := by
  simp [leadTicks, List.takeWhile_cons]

theorem leadTicks_cons_ne {c : Char} (t : Str) (h : c ≠ '`') :
    leadTicks (c :: t) = 0 := by
  simp [leadTicks, List.takeWhile_cons, h]

theorem ticks1_prefix_iff (l : Str) : (['`'] <+: l) ↔ 1 ≤ leadTicks l := by
  cases l with
  | nil => simp [leadTicks]
  | cons a t =>
    by_cases ha : a = '`'
    · subst ha
      simp [List.cons_prefix_cons, leadTicks_cons_tick]
    · rw [leadTicks_cons_ne t ha]
      constructor
      · intro hp
        rw [List.cons_prefix_cons] at hp
        exact absurd hp.1.symm ha
      · intro hcon
        omega

theorem ticks2_prefix_iff (l : Str) : (['`', '`'] <+: l) ↔ 2 ≤ leadTicks l := by
  cases l with
  | nil => simp [leadTicks]
  | cons a t =>
    by_cases ha : a = '`'
    · subst ha
      rw [List.cons_prefix_cons, leadTicks_cons_tick, ticks1_prefix_iff]
      constructor
      · rintro ⟨-, h⟩
        omega
      · intro h
        exact ⟨rfl, by omega⟩
    · rw [leadTicks_cons_ne t ha]
      constructor
      · intro hp
        rw [List.cons_prefix_cons] at hp
        exact absurd hp.1.symm ha
      · intro hcon
        omega

theorem ticks3_prefix_iff (l : Str) : (['`', '`', '`'] <+: l) ↔ 3 ≤ leadTicks l := by
  cases l with
  | nil => simp [leadTicks]
  | cons a t =>
    by_cases ha : a = '`'
    · subst ha
      rw [List.cons_prefix_cons, leadTicks_cons_tick, ticks2_prefix_iff]
      constructor
      · rintro ⟨-, h⟩
        omega
      · intro h
        exact ⟨rfl, by omega⟩
    · rw [leadTicks_cons_ne t ha]
      constructor
      · intro hp
        rw [List.cons_prefix_cons] at hp
        exact absurd hp.1.symm ha
      · intro hcon
        omega

/-- Invariant of the bare-fence pass: its output contains no three consecutive
backticks, and it begins with at most `min 2 (leading backticks of the input)`
backticks. -/
theorem fence3_spec : ∀ (n : Nat) (l : Str), l.length ≤ n →
    ¬ (['`', '`', '`'] <:+: replaceFence '`' ("``".data) l) ∧
    leadTicks (replaceFence '`' ("``".data) l) ≤ min 2 (leadTicks l) := by
  intro n
  induction n with
  | zero =>
    intro l hl
    have hnil : l = [] := by
      cases l
      · rfl
      · simp at hl
    subst hnil
    constructor
    · rw [replaceFence_nil]
      simp
    · rw [replaceFence_nil]
      simp [leadTicks]
  | succ n ih =>
    intro l hl
    cases l with
    | nil =>
      constructor
      · rw [replaceFence_nil]
        simp
      · rw [replaceFence_nil]
        simp [leadTicks]
    | cons c cs =>
      by_cases hm : ('`' :: ("``".data)).isPrefixOf (c :: cs) = true
      · rw [replaceFence_cons_pos hm]
        have hlen : (dropNl (cs.drop (("``".data)).length)).length ≤ n := by
          have h1 := dropNl_length_le (cs.drop (("``".data)).length)
          have h2 : (cs.drop (("``".data)).length).length ≤ cs.length := by simp
          have h3 : cs.length + 1 ≤ n + 1 := by simpa using hl
          omega
        obtain ⟨h1, h2⟩ := ih _ hlen
        refine ⟨h1, ?_⟩
        have hpre : (['`', '`', '`'] <+: (c :: cs)) := by
          have : ('`' :: ("``".data)) = ['`', '`', '`'] := rfl
          rw [← this]
          exact List.isPrefixOf_iff_prefix.mp hm
        have h3 : 3 ≤ leadTicks (c :: cs) := (ticks3_prefix_iff _).mp hpre
        have h4 : min 2 (leadTicks (c :: cs)) = 2 := Nat.min_eq_left (by omega)
        rw [h4]
        exact h2.trans (Nat.min_le_left _ _)
      · rw [replaceFence_cons_neg hm]
        have hcs : cs.length ≤ n := by
          have : cs.length + 1 ≤ n + 1 := by simpa using hl
          omega
        obtain ⟨h1, h2⟩ := ih cs hcs
        have hm' : ¬ (['`', '`', '`'] <+: (c :: cs)) := by
          intro hp
          apply hm
          rw [List.isPrefixOf_iff_prefix]
          exact hp
        by_cases hc : c = '`'
        · subst hc
          have hcs2 : ¬ (['`', '`'] <+: cs) := by
            intro hp
            exact hm' (List.cons_prefix_cons.mpr ⟨rfl, hp⟩)
          have hlead : leadTicks cs ≤ 1 := by
            by_contra hcon
            push_neg at hcon
            exact hcs2 ((ticks2_prefix_iff cs).mpr (by omega))
          have hfl : leadTicks (replaceFence '`' ("``".data) cs) ≤ 1 :=
            h2.trans ((Nat.min_le_right _ _).trans hlead)
          constructor
          · intro hocc
            rw [List.infix_cons_iff] at hocc
            rcases hocc with hp | hi
            · rw [List.cons_prefix_cons] at hp
              have := (ticks2_prefix_iff _).mp hp.2
              omega
            · exact h1 hi
          · rw [leadTicks_cons_tick, leadTicks_cons_tick]
            have h5 : leadTicks (replaceFence '`' ("``".data) cs) ≤ leadTicks cs :=
              h2.trans (Nat.min_le_right _ _)
            rw [Nat.le_min]
            omega
        · constructor
          · intro hocc
            rw [List.infix_cons_iff] at hocc
            rcases hocc with hp | hi
            · rw [List.cons_prefix_cons] at hp
              exact hc hp.1.symm
            · exact h1 hi
          · rw [leadTicks_cons_ne _ hc]
            simp

/-! ## Helper lemmas about `jsTrim` -/

theorem dropWhile_head?_not (p : Char → Bool) :
    ∀ (l : Str) (c : Char), (l.dropWhile p).head? = some c → p c = false := by
  intro l
  induction l with
  | nil => simp
  | cons a t ih =>
    intro c h
    rw [List.dropWhile_cons] at h
    by_cases hp : p a = true
    · rw [if_pos hp] at h
      exact ih c h
    · rw [if_neg hp] at h
      have : a = c := by simpa using h
      subst this
      simpa using hp

theorem dropWhile_eq_self_of_head? (p : Char → Bool) (l : Str)
    (h : ∀ c, l.head? = some c → p c = false) : l.dropWhile p = l := by
  cases l with
  | nil => rfl
  | cons a t =>
    rw [List.dropWhile_cons, if_neg]
    simp [h a rfl]

theorem prefix_head? {l' l : Str} {c : Char} (h : l' <+: l)
    (hc : l'.head? = some c) : l.head? = some c := by
  obtain ⟨r, rfl⟩ := h
  cases l' with
  | nil => simp at hc
  | cons a t => simpa using hc

/-- The trimmed string is (as a prefix of the left-trimmed string) an infix of
the original. -/
theorem jsTrim_prefix_dropWhile (l : Str) :
    jsTrim l <+: l.dropWhile Char.isWhitespace := by
  unfold jsTrim
  simpa using
    (List.reverse_prefix.mpr
      (List.dropWhile_suffix (l := (l.dropWhile Char.isWhitespace).reverse)
        Char.isWhitespace))

theorem jsTrim_within (l : Str) : jsTrim l <:+: l :=
  (jsTrim_prefix_dropWhile l).isInfix.trans (List.dropWhile_suffix _).isInfix

theorem jsTrim_head? (l : Str) (c : Char) (h : (jsTrim l).head? = some c) :
    Char.isWhitespace c = false := by
  have h1 : (l.dropWhile Char.isWhitespace).head? = some c :=
    prefix_head? (jsTrim_prefix_dropWhile l) h
  exact dropWhile_head?_not _ _ _ h1

theorem jsTrim_getLast? (l : Str) (c : Char) (h : (jsTrim l).getLast? = some c) :
    Char.isWhitespace c = false := by
  unfold jsTrim at h
  rw [List.getLast?_reverse] at h
  exact dropWhile_head?_not _ _ _ h

theorem jsTrim_eq_self (l : Str)
    (hh : ∀ c, l.head? = some c → Char.isWhitespace c = false)
    (hl : ∀ c, l.getLast? = some c → Char.isWhitespace c = false) :
    jsTrim l = l := by
  unfold jsTrim
  rw [dropWhile_eq_self_of_head? _ _ hh]
  rw [dropWhile_eq_self_of_head? _ _ (fun c hc => hl c (by rwa [List.head?_reverse] at hc))]
  exact List.reverse_reverse l

theorem jsTrim_idem (l : Str) : jsTrim (jsTrim l) = jsTrim l :=
  jsTrim_eq_self _ (jsTrim_head? l) (jsTrim_getLast? l)

/-! ## Idempotence of the normalization -/

theorem not_infix_of_infix {pat l l' : Str} (h : l' <:+: l)
    (hno : ¬ pat <:+: l) : ¬ pat <:+: l' :=
  fun hocc => hno (hocc.trans h)

theorem not_infix_of_pat_head {pat l : Str} (hp : ['`', '`', '`'] <+: pat)
    (hno : ¬ ['`', '`', '`'] <:+: l) : ¬ pat <:+: l :=
  fun hocc => hno (hp.isInfix.trans hocc)

/-- After one full normalization the string contains no triple backtick. -/
theorem cleanse_no_tick3 (s : Str) : ¬ (['`', '`', '`'] <:+: cleanse s) := by
  unfold cleanse
  exact not_infix_of_infix (jsTrim_within _) (fence3_spec _ _ le_rfl).1

theorem cleanse_idem (s : Str) : cleanse (cleanse s) = cleanse s := by
  have hcl := cleanse_no_tick3 s
  have hjt : jsTrim (cleanse s) = cleanse s := by
    show jsTrim (jsTrim _) = jsTrim _
    exact jsTrim_idem _
  show jsTrim (replaceFence '`' ("``".data)
      (replaceFence '`' ("``json".data)
        (replaceFence '`' ("``tool_code".data) (jsTrim (cleanse s))))) = cleanse s
  rw [hjt]
  rw [replaceFence_eq_self (not_infix_of_pat_head (by decide) hcl)]
  rw [replaceFence_eq_self (not_infix_of_pat_head (by decide) hcl)]
  rw [replaceFence_eq_self (not_infix_of_pat_head (by decide) hcl)]
  exact hjt

/-! ## Claim theorems -/

/-- C4: the Action Parser returns exactly one Action, checking the three
markers in the fixed order Read (`GET `), Write (`POST `), Complete
(`FINISH(`...`)`); only the first matching marker applies — a `GET ` prefix
yields a Read action regardless of the rest of the text — and text matching
none of the markers yields Invalid. -/
theorem parser_marker_order (jp : Str → Except Str JsonValue) (s : Str) :
    (("GET ".data).isPrefixOf (cleanse s) = true →
      parseAgentResponse jp s = ParsedAction.get (getUrlOf (cleanse s))) ∧
    (("GET ".data).isPrefixOf (cleanse s) = false →
      ("POST ".data).isPrefixOf (cleanse s) = true →
      parseAgentResponse jp s =
        (match jp (postPayloadOf (cleanse s)) with
         | Except.ok v => ParsedAction.post (postUrlOf (cleanse s)) (Sum.inl v)
         | Except.error _ =>
           ParsedAction.post (postUrlOf (cleanse s))
             (Sum.inr (postPayloadOf (cleanse s))))) ∧
    (("GET ".data).isPrefixOf (cleanse s) = false →
      ("POST ".data).isPrefixOf (cleanse s) = false →
      finishGuard (cleanse s) = true →
      parseAgentResponse jp s =
        (match jp (finishInnerOf (cleanse s)) with
         | Except.ok (JsonValue.arr xs) => ParsedAction.finish xs
         | Except.ok v => ParsedAction.finish [v]
         | Except.error _ =>
           ParsedAction.finish [JsonValue.str (finishInnerOf (cleanse s))])) ∧
    (("GET ".data).isPrefixOf (cleanse s) = false →
      ("POST ".data).isPrefixOf (cleanse s) = false →
      finishGuard (cleanse s) = false →
      parseAgentResponse jp s = ParsedAction.invalid) := by
  refine ⟨?_, ?_, ?_, ?_⟩
  · intro hG
    simp [parseAgentResponse, hG]
  · intro hG hP
    simp [parseAgentResponse, hG, hP]
  · intro hG hP hF
    simp [parseAgentResponse, hG, hP, hF]
  · intro hG hP hF
    simp [parseAgentResponse, hG, hP, hF]

/-- Witness for C4: a response starting with `GET ` parses as a Read action
even though `POST` and `FINISH(` markers occur later in the text. -/
theorem parser_marker_order_witness :
    parseAgentResponse jpSample ("GET http://a?x=1 POST http://b FINISH(7)".data) =
      ParsedAction.get ("http://a?x=1 POST http://b FINISH(7)".data) := by
  have h :=
    (parser_marker_order jpSample
      ("GET http://a?x=1 POST http://b FINISH(7)".data)).1 (by decide)
  rw [h]
  have h2 : getUrlOf (cleanse ("GET http://a?x=1 POST http://b FINISH(7)".data)) =
      ("http://a?x=1 POST http://b FINISH(7)".data) := by decide
  rw [h2]

/-- C10: the round orchestrator's inline response classification agrees with
the standalone Action Parser on every input: same case, same extracted url,
same raw payload text, same parse-or-raw payload outcome. -/
theorem orch_parse_agreement (jp : Str → Except Str JsonValue) (s : Str) :
    parseAgentResponse jp s = orchToParsed jp (orchParse jp s) := by
  unfold parseAgentResponse orchParse
  by_cases hG : ("GET ".data).isPrefixOf (cleanse s) = true
  · simp [hG, orchToParsed]
  · by_cases hP : ("POST ".data).isPrefixOf (cleanse s) = true
    · cases hjp : jp (postPayloadOf (cleanse s)) with
      | ok v => simp [hG, hP, hjp, orchToParsed]
      | error e => simp [hG, hP, hjp, orchToParsed]
    · by_cases hF : finishGuard (cleanse s) = true
      · cases hjp : jp (finishInnerOf (cleanse s)) with
        | ok v => cases v <;> simp [hG, hP, hF, hjp, orchToParsed]
        | error e => simp [hG, hP, hF, hjp, orchToParsed]
      · simp [hG, hP, hF, orchToParsed]

/-- C3: for every text that normalizes to `FINISH(` inner `)`: a JSON-array
body yields `Complete` with exactly the decoded array; a non-array JSON value
is wrapped in a single-element array; a body that fails JSON parsing yields a
single-element array holding the raw inner text verbatim. -/
theorem finish_parse_cases (jp : Str → Except Str JsonValue) (s inner : Str)
    (h : cleanse s = ("FINISH(".data) ++ inner ++ [')']) :
    (∀ xs, jp inner = Except.ok (JsonValue.arr xs) →
      parseAgentResponse jp s = ParsedAction.finish xs) ∧
    (∀ v, jp inner = Except.ok v → (∀ xs, v ≠ JsonValue.arr xs) →
      parseAgentResponse jp s = ParsedAction.finish [v]) ∧
    (∀ e, jp inner = Except.error e →
      parseAgentResponse jp s = ParsedAction.finish [JsonValue.str inner]) := by
  have hG : ("GET ".data).isPrefixOf (cleanse s) = false := by rw [h]; rfl
  have hP : ("POST ".data).isPrefixOf (cleanse s) = false := by rw [h]; rfl
  have hF : finishGuard (cleanse s) = true := by
    unfold finishGuard
    rw [h, List.getLast?_concat]
    have hpre : ("FINISH(".data).isPrefixOf (("FINISH(".data) ++ inner ++ [')']) = true := by
      rw [List.isPrefixOf_iff_prefix, List.append_assoc]
      exact List.prefix_append _ _
    rw [hpre]
    rfl
  have hinner : finishInnerOf (cleanse s) = inner := by
    unfold finishInnerOf
    rw [h, List.append_assoc, List.drop_left' (by decide), List.dropLast_concat]
  refine ⟨?_, ?_, ?_⟩
  · intro xs hxs
    simp [parseAgentResponse, hG, hP, hF, hinner, hxs]
  · intro v hv hna
    cases v with
    | arr xs => exact absurd rfl (hna xs)
    | null => simp [parseAgentResponse, hG, hP, hF, hinner, hv]
    | bool b => simp [parseAgentResponse, hG, hP, hF, hinner, hv]
    | num q => simp [parseAgentResponse, hG, hP, hF, hinner, hv]
    | str t => simp [parseAgentResponse, hG, hP, hF, hinner, hv]
    | obj fs => simp [parseAgentResponse, hG, hP, hF, hinner, hv]
  · intro e he
    simp [parseAgentResponse, hG, hP, hF, hinner, he]

/-- Witness for C3: `FINISH([1])` decodes to the array `[1]`; `FINISH(7)`
wraps the scalar; `FINISH(oops)` falls back to the raw inner text. -/
theorem finish_parse_cases_witness :
    parseAgentResponse jpSample ("FINISH([1])".data) =
      ParsedAction.finish [JsonValue.num 1] ∧
    parseAgentResponse jpSample ("FINISH(7)".data) =
      ParsedAction.finish [JsonValue.num 7] ∧
    parseAgentResponse jpSample ("FINISH(oops)".data) =
      ParsedAction.finish [JsonValue.str ("oops".data)] := by
  refine ⟨?_, ?_, ?_⟩
  · have h :=
      (finish_parse_cases jpSample ("FINISH([1])".data) ("[1]".data)
        (by decide)).1 [JsonValue.num 1] (by rw [jpSample]; rfl)
    simpa using h
  · have h :=
      (finish_parse_cases jpSample ("FINISH(7)".data) ("7".data)
        (by decide)).2.1 (JsonValue.num 7) (by rw [jpSample]; rfl)
        (by intro xs hx; cases hx)
    exact h
  · have h :=
      (finish_parse_cases jpSample ("FINISH(oops)".data) ("oops".data)
        (by decide)).2.2 ("Unexpected token".data) (by rw [jpSample]; rfl)
    exact h

/-- C7: the URL dispatched by the read operation always carries the
`_format=` marker: a url already containing `_format=` is dispatched
unchanged (no duplication), otherwise `&_format=json` is appended. -/
theorem read_format_marker (env : Env) (url : Str) :
    jsIncludes (ensureFormat url) ("_format=".data) = true ∧
    (jsIncludes url ("_format=".data) = true → ensureFormat url = url) ∧
    (jsIncludes url ("_format=".data) = false →
      ensureFormat url = url ++ ("&_format=json".data)) ∧
    sendFhirGet env url = env.fhirGetResp (ensureFormat url) := by
  refine ⟨?_, ?_, ?_, rfl⟩
  · by_cases h : jsIncludes url ("_format=".data) = true
    · rw [ensureFormat, if_pos h]
      exact h
    · rw [ensureFormat, if_neg h, jsIncludes_iff]
      have h1 : ("_format=".data) <:+: ("&_format=json".data) :=
        jsIncludes_iff.mp (by decide)
      exact h1.trans ⟨url, [], by simp⟩
  · intro h
    rw [ensureFormat, if_pos h]
  · intro h
    rw [ensureFormat, if_neg (by simp [h])]

/-- Witness for C7: a url with the marker passes through unchanged; one
without it gets `&_format=json` appended, and both dispatched urls contain
`_format=`. -/
theorem read_format_marker_witness :
    ensureFormat ("http://h/Obs?_format=json".data) = ("http://h/Obs?_format=json".data) ∧
    ensureFormat ("http://h/Obs?code=MG".data) =
      ("http://h/Obs?code=MG".data) ++ ("&_format=json".data) ∧
    jsIncludes (ensureFormat ("http://h/Obs?code=MG".data)) ("_format=".data) = true := by
  refine ⟨?_, ?_, ?_⟩
  · exact (read_format_marker envOk ("http://h/Obs?_format=json".data)).2.1 (by decide)
  · exact (read_format_marker envOk ("http://h/Obs?code=MG".data)).2.2.1 (by decide)
  · exact (read_format_marker envOk ("http://h/Obs?code=MG".data)).1

/-- C9: the magnesium dosing rule is a tiered lookup on the serum level:
`[1.5,1.9] -> 1g/1h`, `[1.0,1.5) -> 2g/2h`, `<1.0 -> 4g/4h`, and no order at
or above the 2.0 threshold; in particular at 1.8, 1.2, 0.6 and 2.1. -/
theorem magnesium_tiers :
    (∀ level : ℚ,
      ((3/2 ≤ level ∧ level ≤ 19/10) → magnesiumDose level = some ⟨1, 1⟩) ∧
      ((1 ≤ level ∧ level < 3/2) → magnesiumDose level = some ⟨2, 2⟩) ∧
      (level < 1 → magnesiumDose level = some ⟨4, 4⟩) ∧
      (2 ≤ level → magnesiumDose level = none)) ∧
    magnesiumDose (18/10) = some ⟨1, 1⟩ ∧
    magnesiumDose (12/10) = some ⟨2, 2⟩ ∧
    magnesiumDose (6/10) = some ⟨4, 4⟩ ∧
    magnesiumDose (21/10) = none := by
  constructor
  · intro level
    refine ⟨?_, ?_, ?_, ?_⟩
    · rintro ⟨ha, hb⟩
      rw [magnesiumDose, if_neg (by intro h; linarith), if_pos ⟨ha, hb⟩]
    · rintro ⟨ha, hb⟩
      rw [magnesiumDose, if_neg (by intro h; linarith),
        if_neg (by rintro ⟨hc, -⟩; linarith), if_pos ⟨ha, hb⟩]
    · intro h
      rw [magnesiumDose, if_neg (by intro hc; linarith),
        if_neg (by rintro ⟨hc, -⟩; linarith),
        if_neg (by rintro ⟨hc, -⟩; linarith), if_pos h]
    · intro h
      rw [magnesiumDose, if_pos h]
  · refine ⟨?_, ?_, ?_, ?_⟩ <;> norm_num [magnesiumDose]

/-- Witness for C9: the tier implications evaluated at 1.8, 1.2, 0.6, 2.1. -/
theorem magnesium_tiers_witness :
    magnesiumDose (18/10) = some ⟨1, 1⟩ ∧
    magnesiumDose (12/10) = some ⟨2, 2⟩ ∧
    magnesiumDose (6/10) = some ⟨4, 4⟩ ∧
    magnesiumDose (21/10) = none :=
  ⟨(magnesium_tiers.1 (18/10)).1 ⟨by norm_num, by norm_num⟩,
   (magnesium_tiers.1 (12/10)).2.1 ⟨by norm_num, by norm_num⟩,
   (magnesium_tiers.1 (6/10)).2.2.1 (by norm_num),
   (magnesium_tiers.1 (21/10)).2.2.2 (by norm_num)⟩

/-- C5: an agent whose every response classifies as Read or Write exhausts
the round budget: the orchestrator performs exactly `maxRounds` cycles and
returns `success = false`, `result = none`, `rounds = maxRounds`. -/
theorem rounds_exhausted (env : Env) (agent : List Msg → Str)
    (testCase : TestCase) (functionsJson apiBase : Str) (maxRounds : Nat)
    (hAgent : ∀ h : List Msg,
      ("GET ".data).isPrefixOf (cleanse (agent h)) = true ∨
      ("POST ".data).isPrefixOf (cleanse (agent h)) = true) :
    (runTestCase env agent testCase functionsJson apiBase maxRounds).success = false ∧
    (runTestCase env agent testCase functionsJson apiBase maxRounds).result = none ∧
    (runTestCase env agent testCase functionsJson apiBase maxRounds).rounds = maxRounds := by
  suffices haux : ∀ (fuel round : Nat) (history : List Msg)
      (posts : List (Str × (JsonValue ⊕ Str))),
      (runAux env agent maxRounds round fuel history posts).success = false ∧
      (runAux env agent maxRounds round fuel history posts).result = none ∧
      (runAux env agent maxRounds round fuel history posts).rounds = maxRounds by
    exact haux maxRounds 0 _ _
  intro fuel
  induction fuel with
  | zero =>
    intro round history posts
    exact ⟨rfl, rfl, rfl⟩
  | succ fuel ih =>
    intro round history posts
    rw [runAux]
    by_cases hG : ("GET ".data).isPrefixOf (cleanse (agent history)) = true
    · rw [if_pos hG]
      cases hres : sendFhirGet env (ensureFormat (getUrlOf (cleanse (agent history)))) with
      | ok d => exact ih _ _ _
      | error e => exact ih _ _ _
    · rw [if_neg hG]
      have hP : ("POST ".data).isPrefixOf (cleanse (agent history)) = true :=
        (hAgent history).resolve_left hG
      rw [if_pos hP]
      cases hjp : env.jp (postPayloadOf (cleanse (agent history))) with
      | ok v => exact ih _ _ _
      | error e => exact ih _ _ _

/-- Witness for C5: an agent that always issues the same GET exhausts a
3-round budget. -/
theorem rounds_exhausted_witness :
    (runTestCase envOk agentGet tc0 [] [] 3).success = false ∧
    (runTestCase envOk agentGet tc0 [] [] 3).rounds = 3 := by
  have h := rounds_exhausted envOk agentGet tc0 [] [] 3
    (fun _ => Or.inl (show
      ("GET ".data).isPrefixOf (cleanse ("GET http://h/Patient?name=A".data)) = true
      by decide))
  exact ⟨h.1, h.2.2⟩

/-- C6: a response matching none of the three markers terminates the run
immediately: `success = false`, `result = none`, `rounds` is the current
round number, the write trace is unchanged (no write dispatched), and the
history receives only the agent turn (no further agent invocation). -/
theorem invalid_terminates (env : Env) (agent : List Msg → Str)
    (maxRounds round fuel : Nat) (history : List Msg)
    (posts : List (Str × (JsonValue ⊕ Str)))
    (hG : ("GET ".data).isPrefixOf (cleanse (agent history)) = false)
    (hP : ("POST ".data).isPrefixOf (cleanse (agent history)) = false)
    (hF : finishGuard (cleanse (agent history)) = false) :
    runAux env agent maxRounds round (fuel + 1) history posts =
      { success := false, result := none,
        history := history ++ [{ role := "agent".data, content := agent history }],
        rounds := round + 1, posts := posts } := by
  rw [runAux, if_neg (by simp [hG]), if_neg (by simp [hP]), if_neg (by simp [hF])]

/-- Witness for C6: unparseable text on round 1 of a 3-round budget stops the
run at round 1 with no writes. -/
theorem invalid_terminates_witness :
    runAux envOk agentHello 3 0 3 [] [] =
      { success := false, result := none,
        history := [{ role := "agent".data, content := "hello".data }],
        rounds := 1, posts := [] } := by
  have h := invalid_terminates envOk agentHello 3 0 2 [] []
    (by decide) (by decide) (by decide)
  simpa using h

/-- C1 counterexample: with a write turn whose body fails JSON parsing, the
round loop dispatches nothing (empty write trace) and the observer feedback
is the locally synthesized `Invalid POST request` message — not the record
server's response, contrary to the claim that the raw body is forwarded and
never rejected locally. -/
theorem malformed_post_counterexample :
    (runTestCase envOk agentPostBad tc0 [] [] 1).posts = [] ∧
    (runTestCase envOk agentPostBad tc0 [] [] 1).history.getLast? =
      some { role := "user".data, content := postErrMsg ("Unexpected token".data) } := by
  exact ⟨rfl, rfl⟩

/-- C1 (amended): a write body that fails JSON parsing is rejected locally by
the round orchestrator — no write is dispatched, the observer feedback is
`Invalid POST request: ` followed by the parse error, and the loop continues
with the next round; the standalone parser, by contrast, preserves the raw
body text as the payload of the Write action. -/
theorem malformed_post_rejected_locally (env : Env) (agent : List Msg → Str)
    (maxRounds round fuel : Nat) (history : List Msg)
    (posts : List (Str × (JsonValue ⊕ Str))) (e : Str)
    (hG : ("GET ".data).isPrefixOf (cleanse (agent history)) = false)
    (hP : ("POST ".data).isPrefixOf (cleanse (agent history)) = true)
    (hjp : env.jp (postPayloadOf (cleanse (agent history))) = Except.error e) :
    runAux env agent maxRounds round (fuel + 1) history posts =
      runAux env agent maxRounds (round + 1) fuel
        (history ++ [{ role := "agent".data, content := agent history },
                     { role := "user".data, content := postErrMsg e }]) posts ∧
    parseAgentResponse env.jp (agent history) =
      ParsedAction.post (postUrlOf (cleanse (agent history)))
        (Sum.inr (postPayloadOf (cleanse (agent history)))) := by
  constructor
  · rw [runAux, if_neg (by simp [hG]), if_pos hP]
    simp only [hjp]
  · simp [parseAgentResponse, hG, hP, hjp]

/-- Witness for C1 (amended): the malformed write `POST url / not json`
leaves the write trace empty and parses (standalone) to a Write action
carrying the raw body. -/
theorem malformed_post_rejected_locally_witness :
    (runAux envOk agentPostBad 1 0 1 [] []).posts = [] ∧
    parseAgentResponse envOk.jp (agentPostBad []) =
      ParsedAction.post ("http://h/Observation".data) (Sum.inr ("not json".data)) := by
  have h := malformed_post_rejected_locally envOk agentPostBad 1 0 0 [] []
    ("Unexpected token".data) (by decide) (by decide) rfl
  constructor
  · rw [h.1]
    rfl
  · have h2 := h.2
    have e1 : postUrlOf (cleanse (agentPostBad [])) = ("http://h/Observation".data) := by
      decide
    have e2 : postPayloadOf (cleanse (agentPostBad [])) = ("not json".data) := by
      decide
    rw [e1, e2] at h2
    exact h2

/-! ## Support for the fence-wrapped GET property -/

theorem prefix_of_prefix_append {t l r : Str} (h : t <+: l ++ r)
    (hlen : t.length ≤ l.length) : t <+: l := by
  rw [List.prefix_iff_eq_take, List.take_append_of_le_length hlen] at h
  rw [h]
  exact List.take_prefix _ _

theorem not_isPrefixOf_append (pat l r : Str)
    (h : (pat.take l.length).isPrefixOf l = false) :
    ¬ pat.isPrefixOf (l ++ r) = true := by
  intro hcon
  rw [List.isPrefixOf_iff_prefix] at hcon
  have h1 : pat.take l.length <+: l ++ r := (List.take_prefix _ _).trans hcon
  have h2 : (pat.take l.length).length ≤ l.length := by
    rw [List.length_take]
    exact Nat.min_le_left _ _
  have h3 := prefix_of_prefix_append h1 h2
  rw [← List.isPrefixOf_iff_prefix] at h3
  rw [h] at h3
  cases h3

theorem isPrefixOf_append_left (pat l r : Str)
    (h : pat.isPrefixOf l = true) : pat.isPrefixOf (l ++ r) = true := by
  rw [List.isPrefixOf_iff_prefix] at h ⊢
  exact h.trans (List.prefix_append _ _)

/-- A region containing no character equal to the pattern head passes through
the fence replacement untouched. -/
theorem replaceFence_append_keep {p : Char} {ps : Str} (l r : Str)
    (h : ∀ c ∈ l, c ≠ p) :
    replaceFence p ps (l ++ r) = l ++ replaceFence p ps r := by
  induction l with
  | nil => simp
  | cons c t ih =>
    have hc : c ≠ p := h c (List.mem_cons_self c t)
    have hpre : ((p :: ps).isPrefixOf (c :: (t ++ r))) = false := by
      show ((p == c) && ps.isPrefixOf (t ++ r)) = false
      rw [beq_eq_false_iff_ne.mpr (Ne.symm hc)]
      rfl
    rw [List.cons_append, replaceFence_cons_neg (by simp [hpre]),
      ih (fun d hd => h d (List.mem_cons_of_mem _ hd)), List.cons_append]

/-- The `GET `-line characters contain no backtick. -/
theorem getline_no_tick {url : Str} (hurl : '`' ∉ url) :
    ∀ c ∈ ("GET ".data ++ url), c ≠ '`' := by
  intro c hc
  rw [List.mem_append] at hc
  rcases hc with h1 | h2
  · simp at h1
    rcases h1 with rfl | rfl | rfl | rfl <;> decide
  · intro he
    exact hurl (he ▸ h2)

/-- A fence pass whose pattern mismatches all four leading positions of the
bare-fence-wrapped GET line, and fixes the trailing fence, leaves the whole
string intact. -/
theorem fence_pass_keep (ps url : Str) (hurl : '`' ∉ url)
    (h4 : (('`' :: ps).take 4).isPrefixOf ['`', '`', '`', '\n'] = false)
    (h3 : (('`' :: ps).take 3).isPrefixOf ['`', '`', '\n'] = false)
    (h2 : (('`' :: ps).take 2).isPrefixOf ['`', '\n'] = false)
    (h1 : (('`' :: ps).take 1).isPrefixOf ['\n'] = false)
    (hrest : replaceFence '`' ps ['\n', '`', '`', '`'] = ['\n', '`', '`', '`']) :
    replaceFence '`' ps
        ('`' :: '`' :: '`' :: '\n' ::
          (("GET ".data ++ url) ++ ['\n', '`', '`', '`'])) =
      '`' :: '`' :: '`' :: '\n' ::
        (("GET ".data ++ url) ++ ['\n', '`', '`', '`']) := by
  have e1 : replaceFence '`' ps
      ('`' :: '`' :: '`' :: '\n' ::
        (("GET ".data ++ url) ++ ['\n', '`', '`', '`'])) =
      '`' :: replaceFence '`' ps
        ('`' :: '`' :: '\n' :: (("GET ".data ++ url) ++ ['\n', '`', '`', '`'])) :=
    replaceFence_cons_neg (not_isPrefixOf_append _ ['`', '`', '`', '\n'] _ h4)
  have e2 : replaceFence '`' ps
      ('`' :: '`' :: '\n' :: (("GET ".data ++ url) ++ ['\n', '`', '`', '`'])) =
      '`' :: replaceFence '`' ps
        ('`' :: '\n' :: (("GET ".data ++ url) ++ ['\n', '`', '`', '`'])) :=
    replaceFence_cons_neg (not_isPrefixOf_append _ ['`', '`', '\n'] _ h3)
  have e3 : replaceFence '`' ps
      ('`' :: '\n' :: (("GET ".data ++ url) ++ ['\n', '`', '`', '`'])) =
      '`' :: replaceFence '`' ps
        ('\n' :: (("GET ".data ++ url) ++ ['\n', '`', '`', '`'])) :=
    replaceFence_cons_neg (not_isPrefixOf_append _ ['`', '\n'] _ h2)
  have e4 : replaceFence '`' ps
      ('\n' :: (("GET ".data ++ url) ++ ['\n', '`', '`', '`'])) =
      '\n' :: replaceFence '`' ps
        (("GET ".data ++ url) ++ ['\n', '`', '`', '`']) :=
    replaceFence_cons_neg (not_isPrefixOf_append _ ['\n'] _ h1)
  have e5 : replaceFence '`' ps (("GET ".data ++ url) ++ ['\n', '`', '`', '`']) =
      ("GET ".data ++ url) ++ replaceFence '`' ps ['\n', '`', '`', '`'] :=
    replaceFence_append_keep _ _ (getline_no_tick hurl)
  rw [e1, e2, e3, e4, e5, hrest]

/-- The bare fence pass strips both fences around the GET line. -/
theorem bare_pass_fencedGet {url : Str} (hurl : '`' ∉ url) :
    replaceFence '`' ("``".data)
        ('`' :: '`' :: '`' :: '\n' ::
          (("GET ".data ++ url) ++ ['\n', '`', '`', '`'])) =
      ("GET ".data ++ url) ++ ['\n'] := by
  have e1 : replaceFence '`' ("``".data)
      ('`' :: '`' :: '`' :: '\n' ::
        (("GET ".data ++ url) ++ ['\n', '`', '`', '`'])) =
      replaceFence '`' ("``".data)
        (("GET ".data ++ url) ++ ['\n', '`', '`', '`']) :=
    replaceFence_cons_pos (isPrefixOf_append_left _ ['`', '`', '`', '\n'] _ (by decide))
  have e5 : replaceFence '`' ("``".data)
      (("GET ".data ++ url) ++ ['\n', '`', '`', '`']) =
      ("GET ".data ++ url) ++ replaceFence '`' ("``".data) ['\n', '`', '`', '`'] :=
    replaceFence_append_keep _ _ (getline_no_tick hurl)
  rw [e1, e5]
  rw [show replaceFence '`' ("``".data) ['\n', '`', '`', '`'] = ['\n'] from rfl]

/-- Trimming the GET line with its trailing newline keeps the query intact. -/
theorem jsTrim_getline {url : Str} {c₂ : Char}
    (hlast : url.getLast? = some c₂) (hws : Char.isWhitespace c₂ = false) :
    jsTrim (("GET ".data ++ url) ++ ['\n']) = "GET ".data ++ url := by
  obtain ⟨t, hrev⟩ : ∃ t, url.reverse = c₂ :: t := by
    have h1 : url.reverse.head? = some c₂ := by
      rw [List.head?_reverse]
      exact hlast
    cases hu : url.reverse with
    | nil => rw [hu] at h1; cases h1
    | cons a s =>
      rw [hu] at h1
      injection h1 with h1
      exact ⟨s, by rw [h1]⟩
  unfold jsTrim
  have hdw : List.dropWhile Char.isWhitespace (("GET ".data ++ url) ++ ['\n']) =
      ("GET ".data ++ url) ++ ['\n'] := by
    show List.dropWhile Char.isWhitespace
        ('G' :: (('E' :: 'T' :: ' ' :: url) ++ ['\n'])) =
      ("GET ".data ++ url) ++ ['\n']
    rw [List.dropWhile_cons, if_neg (by decide)]
    rfl
  rw [hdw]
  have hrev2 : ((("GET ".data ++ url) ++ ['\n'])).reverse =
      '\n' :: (url.reverse ++ [' ', 'T', 'E', 'G']) := by
    rw [List.reverse_append, List.reverse_append]
    rfl
  rw [hrev2, List.dropWhile_cons, if_pos (by decide)]
  rw [hrev]
  rw [show ((c₂ :: t) ++ [' ', 'T', 'E', 'G']) =
        c₂ :: (t ++ [' ', 'T', 'E', 'G']) from rfl]
  rw [List.dropWhile_cons, if_neg (by simp [hws])]
  rw [show (c₂ :: (t ++ [' ', 'T', 'E', 'G'])) =
        ((c₂ :: t) ++ [' ', 'T', 'E', 'G']) from rfl]
  rw [← hrev, List.reverse_append, List.reverse_reverse]
  rfl

/-- C8: the normalization (trim + stripping the enumerated code-fence styles)
is idempotent — re-applying it returns the same string — and a fence-wrapped
`GET url?query` text parses to a Read action whose url preserves the query
string. -/
theorem normalization_idem_and_fenced_get :
    (∀ s : Str, cleanse (cleanse s) = cleanse s) ∧
    (∀ (url : Str) (c₁ c₂ : Char) (jp : Str → Except Str JsonValue),
      '`' ∉ url →
      url.head? = some c₁ → Char.isWhitespace c₁ = false →
      url.getLast? = some c₂ → Char.isWhitespace c₂ = false →
      parseAgentResponse jp
        ('`' :: '`' :: '`' :: '\n' ::
          (("GET ".data ++ url) ++ ['\n', '`', '`', '`'])) =
        ParsedAction.get url) := by
  refine ⟨cleanse_idem, ?_⟩
  intro url c₁ c₂ jp hurl hh hwsh hl hwsl
  have hjt0 : jsTrim ('`' :: '`' :: '`' :: '\n' ::
      (("GET ".data ++ url) ++ ['\n', '`', '`', '`'])) =
      '`' :: '`' :: '`' :: '\n' ::
        (("GET ".data ++ url) ++ ['\n', '`', '`', '`']) := by
    apply jsTrim_eq_self
    · intro c hc
      have hc' : c = '`' := by simpa using hc.symm
      subst hc'
      decide
    · intro c hc
      rw [show ('`' :: '`' :: '`' :: '\n' ::
          (("GET ".data ++ url) ++ ['\n', '`', '`', '`'])) =
        (('`' :: '`' :: '`' :: '\n' ::
          (("GET ".data ++ url) ++ ['\n', '`', '`'])) ++ ['`']) from by simp] at hc
      rw [List.getLast?_concat] at hc
      have hc' : c = '`' := by simpa using hc.symm
      subst hc'
      decide
  have hcl : cleanse ('`' :: '`' :: '`' :: '\n' ::
      (("GET ".data ++ url) ++ ['\n', '`', '`', '`'])) = "GET ".data ++ url := by
    unfold cleanse
    rw [hjt0]
    rw [fence_pass_keep ("``tool_code".data) url hurl
      (by decide) (by decide) (by decide) (by decide) rfl]
    rw [fence_pass_keep ("``json".data) url hurl
      (by decide) (by decide) (by decide) (by decide) rfl]
    rw [bare_pass_fencedGet hurl]
    exact jsTrim_getline hl hwsl
  have hG : ("GET ".data).isPrefixOf (cleanse ('`' :: '`' :: '`' :: '\n' ::
      (("GET ".data ++ url) ++ ['\n', '`', '`', '`']))) = true := by
    rw [hcl]
    exact isPrefixOf_append_left _ ("GET ".data) url (by decide)
  have hparse : parseAgentResponse jp ('`' :: '`' :: '`' :: '\n' ::
      (("GET ".data ++ url) ++ ['\n', '`', '`', '`'])) =
      ParsedAction.get (getUrlOf (cleanse ('`' :: '`' :: '`' :: '\n' ::
        (("GET ".data ++ url) ++ ['\n', '`', '`', '`'])))) := by
    unfold parseAgentResponse
    rw [if_pos hG]
  rw [hparse]
  unfold getUrlOf
  rw [hcl]
  rw [show (("GET ".data ++ url).drop 4) = url from rfl]
  have hhead : ∀ c, url.head? = some c → Char.isWhitespace c = false := by
    intro c hc
    rw [hh] at hc
    injection hc with hc
    rw [← hc]
    exact hwsh
  have hlast2 : ∀ c, url.getLast? = some c → Char.isWhitespace c = false := by
    intro c hc
    rw [hl] at hc
    injection hc with hc
    rw [← hc]
    exact hwsl
  rw [jsTrim_eq_self url hhead hlast2]

/-- Witness for C8: a fenced `GET` with a query string parses to a Read
action preserving the query, and re-normalizing a normalized sample is a
no-op. -/
theorem normalization_idem_and_fenced_get_witness :
    parseAgentResponse jpSample ("```\nGET http://a?b=1&c=2\n```".data) =
      ParsedAction.get ("http://a?b=1&c=2".data) := by
  have h := normalization_idem_and_fenced_get.2 ("http://a?b=1&c=2".data)
    'h' '2' jpSample (by decide) (by decide) (by decide) (by decide) (by decide)
  exact h

/-- C2 (evaluation of the code at the failing input): the round loop appends
the success confirmation containing the accepted marker even though the
record server rejected the write — `sendFhirPost` returns an error
descriptor, the write was dispatched, yet the observer turn is the success
confirmation, never an error description. -/
theorem write_confirmation_ignores_server_error :
    sendFhirPost envPostErr ("http://h/Observation".data)
        (Sum.inl (JsonValue.obj [])) =
      Except.error ("Request failed with status code 400".data) ∧
    (runTestCase envPostErr agentPostOk tc0 [] [] 1).history.getLast? =
      some { role := "user".data, content := postOkMsg } ∧
    (runTestCase envPostErr agentPostOk tc0 [] [] 1).posts =
      [(("http://h/Observation".data), Sum.inl (JsonValue.obj []))] ∧
    jsIncludes postOkMsg ("POST request accepted".data) = true := by
  exact ⟨rfl, rfl, rfl, by decide⟩

end MedAgent
